import Mathlib

/-!
Verification development for `eden_subnet/base/base.py`.

Shallow embedding conventions:
* Python `str` is modelled as `List Char` (`PyStr`).
* Python `dict[K, V]` is modelled as an association list `List (K × V)` in
  insertion order; the dict invariant (unique keys) is an explicit `Nodup`
  hypothesis where a statement needs it.
* The blockchain client (`c_client.query_map_address`, `query_map_key`,
  `query_map_weights`) and the HTTP transport (`requests.post`) are external
  collaborators; each operation is parameterised by the data they return.
* Fallible code returns `Except PyError _`; the constructors name the Python
  exception classes that the code can raise or catch.
* `re.Match` objects are modelled by their `group(0)` substring, `re.search`
  returning `None` by `Option.none`.
-/

set_option maxHeartbeats 1000000

abbrev PyStr := List Char

/-- Python exception classes that appear in the behaviour of `base.py`. -/
inductive PyError where
  | nameError
  | keyError
  | indexError
  | valueError
  | runtimeError
  deriving DecidableEq, Repr

/-- Association-list lookup, the model of Python `d.get(k)` / `d[k]` on a
dict with `Nodup` keys. -/
def alookup {α β : Type} [DecidableEq α] (k : α) : List (α × β) → Option β
  | [] => none
  | (a, b) :: t => if a = k then some b else alookup k t

/-- Number of leading decimal-digit characters of `s`: the length a greedy
`\d` run of `IP_REGEX` consumes at the head of `s`.  (`\d` is modelled as an
ASCII digit; the on-chain address strings are ASCII.) -/
def countDigits : PyStr → Nat
  | [] => 0
  | c :: cs => if c.isDigit then countDigits cs + 1 else 0

/-- Match `\d{1,3}` followed by the one-character separator `sep` (`'.'` or
`':'` in `IP_REGEX`) at the head of `s`, returning the number of characters
consumed and the rest of the input.  Greedy backtracking over the bounded
digit run is deterministic for this regex: every position strictly inside the
leading digit run holds a digit and the separator is not a digit, so the only
viable choice consumes the whole run. -/
def matchOctet (sep : Char) (s : PyStr) : Option (Nat × PyStr) :=
  if 1 ≤ countDigits s ∧ countDigits s ≤ 3 then
    match s.drop (countDigits s) with
    | c :: rest => if c = sep then some (countDigits s + 1, rest) else none
    | [] => none
  else none

/-- Match `IP_REGEX = \d{1,3}\.\d{1,3}\.\d{1,3}\.\d{1,3}:\d+` at the head of
`s`, returning the length of the greedy match. -/
def matchHere (s : PyStr) : Option Nat :=
  match matchOctet '.' s with
  | none => none
  | some (n1, s1) =>
    match matchOctet '.' s1 with
    | none => none
    | some (n2, s2) =>
      match matchOctet '.' s2 with
      | none => none
      | some (n3, s3) =>
        match matchOctet ':' s3 with
        | none => none
        | some (n4, s4) =>
          if 1 ≤ countDigits s4 then some (n1 + n2 + n3 + n4 + countDigits s4)
          else none

/-- `re.search` semantics for the fixed pattern `IP_REGEX`: try each start
position from the left; at the first position where the pattern matches,
return the matched substring (the `Match`'s `group(0)`). -/
def searchFrom : PyStr → Option PyStr
  | [] => none
  | c :: cs =>
    match matchHere (c :: cs) with
    | some n => some ((c :: cs).take n)
    | none => searchFrom cs

/-- `BaseModule.extract_address`: `re.search(pattern=IP_REGEX, string=string)`,
the returned `Match` modelled by its `group(0)`. -/
def extract_address (string : PyStr) : Option PyStr :=
  searchFrom string

/-- Python `s.split(":")`: split at every colon; the empty string splits to
`[""]`. -/
def splitOnColon : PyStr → List PyStr
  | [] => [[]]
  | c :: cs =>
    if c = ':' then [] :: splitOnColon cs
    else
      match splitOnColon cs with
      | r :: rs => (c :: r) :: rs
      | [] => [[c]]

/-- `BaseModule.get_ip_port`: first build `filtered_addr` mapping each id to
`extract_address` of its address, then keep the ids whose match is not `None`,
each mapped to `x.group(0).split(":")`. -/
def get_ip_port (modules_addresses : List (Nat × PyStr)) : List (Nat × List PyStr) :=
  let filtered_addr : List (Nat × Option PyStr) :=
    modules_addresses.map (fun p => (p.1, extract_address p.2))
  filtered_addr.filterMap (fun p =>
    match p.2 with
    | some x => some (p.1, splitOnColon x)
    | none => none)

/-! ### Declarative specification of `IP_REGEX` matching -/

/-- Every character of `l` is a decimal digit. -/
def allDigits (l : PyStr) : Prop := ∀ c ∈ l, c.isDigit

/-- A `\d{1,3}` component: one to three digits. -/
def IsOctet (l : PyStr) : Prop := 1 ≤ l.length ∧ l.length ≤ 3 ∧ allDigits l

/-- A string matching the whole of `IP_REGEX`: four one-to-three-digit groups
separated by dots, a colon, then one or more digits. -/
def IsIpPortToken (t : PyStr) : Prop :=
  ∃ a b c d p, t = a ++ '.' :: (b ++ '.' :: (c ++ '.' :: (d ++ ':' :: p))) ∧
    IsOctet a ∧ IsOctet b ∧ IsOctet c ∧ IsOctet d ∧ 1 ≤ p.length ∧ allDigits p

/-- `s` contains some substring matching `IP_REGEX`. -/
def ContainsToken (s : PyStr) : Prop :=
  ∃ pre t post, s = pre ++ t ++ post ∧ IsIpPortToken t

/-- `m` is the match `re.search` returns on `s`: a matching substring of `s`
occurring at the leftmost possible position and, among the matches at that
position, the longest (all quantifiers of `IP_REGEX` are greedy). -/
def IsFirstMatch (s m : PyStr) : Prop :=
  IsIpPortToken m ∧
    ∃ pre post, s = pre ++ m ++ post ∧
      ∀ pre2 t2 post2, s = pre2 ++ t2 ++ post2 → IsIpPortToken t2 →
        pre.length ≤ pre2.length ∧ (pre2.length = pre.length → t2.length ≤ m.length)

/-! ### `BaseValidator.get_queryable_miners` -/

/-- The `module_info` dict built per miner inside `get_queryable_miners`: its
possible keys are `"netuid"`, `"ss58_address"` (bound to the `[ip, port]`
list produced by `get_ip_port`, not to an ss58 key), `"host"` and `"port"`;
an absent key is `none`. -/
structure ModuleInfo where
  netuid : Option Nat
  ss58_address : Option (List PyStr)
  host : Option PyStr
  port : Option PyStr
  deriving DecidableEq, Repr

/-- The fresh `module_info = {}`. -/
def ModuleInfo.empty : ModuleInfo := ⟨none, none, none, none⟩

/-- The first walrus block of an iteration:
`if ss58_addr := modules_filtered_address.get(module_id):` sets `"netuid"`
and `"ss58_address"` on the fresh `module_info` when the looked-up list is
truthy (present and non-empty). -/
def gqm_info1 (filtered : List (Nat × List PyStr)) (module_id : Nat) : ModuleInfo :=
  match alookup module_id filtered with
  | some ss58_addr =>
    if ss58_addr.isEmpty then ModuleInfo.empty
    else { ModuleInfo.empty with netuid := some module_id, ss58_address := some ss58_addr }
  | none => ModuleInfo.empty

/-- The second walrus block of an iteration: `module_host_address` is rebound
to the same filtered lookup; under `":" in module_host_address` (list
membership) the source indexes the list with `module_host_address[module_id]`
(`IndexError` when out of range) and unpacks its `split(":")` into
`host, port` (`ValueError` unless exactly two pieces). -/
def gqm_step2 (filtered : List (Nat × List PyStr)) (module_id : Nat)
    (info1 : ModuleInfo) : Except PyError ModuleInfo :=
  match alookup module_id filtered with
  | some module_host_address =>
    if module_host_address.isEmpty then .ok info1
    else if ([':'] : PyStr) ∈ module_host_address then
      match module_host_address.get? module_id with
      | none => .error .indexError
      | some elt =>
        match splitOnColon elt with
        | [h, p] => .ok { info1 with host := some h, port := some p }
        | _ => .error .valueError
    else .ok info1
  | none => .ok info1

/-- The `for module_id, ss58_address in modules_keys.items()` loop of
`get_queryable_miners`, building `module_dict` in iteration order.
Per iteration, mirroring the source: `module_id == 0` (master) and
`ss58_address == self.settings.ss58_address` (yourself) are skipped with
`continue`; the first walrus (`gqm_info1`) fills `module_info`;
`module_addresses[module_id]` raises `KeyError` when absent (not caught: the
`except` clause of the source only catches `RuntimeError`); the second walrus
block (`gqm_step2`) may add `"host"`/`"port"`; finally
`module_dict[module_id] = module_info`. -/
def gqm_loop (module_addresses : List (Nat × PyStr))
    (filtered : List (Nat × List PyStr)) (self_ss58 : PyStr) :
    List (Nat × PyStr) → Except PyError (List (Nat × ModuleInfo))
  | [] => .ok []
  | (module_id, ss58_address) :: rest =>
    if module_id = 0 then gqm_loop module_addresses filtered self_ss58 rest
    else if ss58_address = self_ss58 then gqm_loop module_addresses filtered self_ss58 rest
    else
      match alookup module_id module_addresses with
      | none => .error .keyError
      | some _ =>
        match gqm_step2 filtered module_id (gqm_info1 filtered module_id) with
        | .error e => .error e
        | .ok info =>
          match gqm_loop module_addresses filtered self_ss58 rest with
          | .error e => .error e
          | .ok d => .ok ((module_id, info) :: d)

/-- `BaseValidator.get_queryable_miners`, parameterised by the results of the
two chain queries (`query_map_address`, `query_map_key`) and by the
validator's configured `self.settings.ss58_address`.  When `module_keys` is
empty (falsy), the guarded assignment `modules_keys = dict(...)` never runs
and iterating the unbound name raises `NameError`; the source's
`except RuntimeError` clause catches none of the errors this body can raise. -/
def get_queryable_miners (module_addresses module_keys : List (Nat × PyStr))
    (self_ss58 : PyStr) : Except PyError (List (Nat × ModuleInfo)) :=
  if module_keys.isEmpty then .error .nameError
  else
    let modules_filtered_address := get_ip_port module_addresses
    gqm_loop module_addresses modules_filtered_address self_ss58 module_keys

/-! ### `BaseValidator.score_miner` -/

/-- The `{"weight": ...}` record stored under the netuid by `score_miner`. -/
structure ScoreRec where
  weight : Int
  deriving DecidableEq, Repr

/-- `BaseValidator.score_miner`, parameterised by the `"netuid"` and
`"ss58_address"` entries of `module_info` and by the result `weights_dict` of
`c_client.query_map_weights(netuid=netuid)`.  When the key is absent the
source raises `RuntimeError`; otherwise `modules_info = {}` is fresh, the
`netuid in modules_info` test selects the accumulation branch
(`+= weights`) or the assignment branch, and the dict is returned. -/
def score_miner (netuid : Nat) (ss58_key : PyStr) (weights_dict : List (PyStr × Int)) :
    Except PyError (List (Nat × ScoreRec)) :=
  match alookup ss58_key weights_dict with
  | none => .error .runtimeError
  | some weights =>
    match alookup netuid ([] : List (Nat × ScoreRec)) with
    | some r => .ok [(netuid, ⟨r.weight + weights⟩)]
    | none => .ok [(netuid, ⟨weights⟩)]

/-! ### `BaseValidator.get_miner_generation` -/

/-- The pydantic `Message` model: `content` and `role`. -/
structure Message where
  content : PyStr
  role : PyStr
  deriving DecidableEq, Repr

/-- One entry of the `miner_list` that `get_miner_generation` iterates: a dict
with a `"netuid"` uid and an `"ss58_address"` entry holding (per
`get_queryable_miners`) the `[ip, port]` list. -/
structure Miner where
  netuid : Nat
  ss58_address : List PyStr
  deriving DecidableEq, Repr

/-- Outcome of one `requests.post` call: an HTTP response with a status code
and body, or an exception raised by the call. -/
inductive HttpOutcome where
  | resp (status : Nat) (content : PyStr)
  | exc (e : PyError)
  deriving DecidableEq, Repr

/-- One HTTP POST request as issued by `get_miner_generation`: the target
URL and the JSON body `miner_input.model_dump()`. -/
structure Request where
  url : PyStr
  body : Message
  deriving DecidableEq, Repr

/-- The f-string `f"http://{module_host}:{module_port}/generate"`. -/
def mkUrl (host port : PyStr) : PyStr :=
  ("http://".toList) ++ host ++ ':' :: port ++ ("/generate".toList)

/-- The `for miner_dict in miner_list` loop of `get_miner_generation`.
State threaded through the loop: the position `i` of the next miner (the
network oracle `http` maps a position to the outcome of the POST issued
there) and the Python local `result`, a variable that is only assigned under
`reponse.status_code == 200` and otherwise keeps its previous value —
`none` models the name being unbound.  Returns the trace of POSTs issued and
either the `results_dict` (in insertion order) or the exception that escaped.
Per iteration, mirroring the source:
* `keys[uid]` raises `KeyError` when the uid is absent from
  `query_map_key(netuid=10)` (before the `try`, so it propagates);
* `module_host, module_port = miner_dict["ss58_address"]` raises
  `ValueError` unless the list has exactly two elements (also before the
  `try`);
* inside the `try`, one POST is issued; on a 200 response `result` is
  rebound to the body; `results_dict[uid] = result` raises `NameError` when
  `result` has never been bound; a raised `ValueError` is caught and stores
  `"0.0001"`; any other exception propagates. -/
def gmg_loop (keymap : List (Nat × PyStr)) (miner_input : Message)
    (http : Nat → HttpOutcome) :
    List Miner → Nat → Option PyStr →
    List Request × Except PyError (List (Nat × PyStr))
  | [], _, _ => ([], .ok [])
  | m :: rest, i, result =>
    match alookup m.netuid keymap with
    | none => ([], .error .keyError)
    | some _miner_ss58_address =>
      match m.ss58_address with
      | [module_host, module_port] =>
        match http i with
        | .resp status content =>
          match (if status = 200 then some content else result) with
          | none => ([⟨mkUrl module_host module_port, miner_input⟩], .error .nameError)
          | some r =>
            (⟨mkUrl module_host module_port, miner_input⟩ ::
                (gmg_loop keymap miner_input http rest (i + 1)
                  (if status = 200 then some content else result)).1,
              match (gmg_loop keymap miner_input http rest (i + 1)
                  (if status = 200 then some content else result)).2 with
              | .error e => .error e
              | .ok d => .ok ((m.netuid, r) :: d))
        | .exc e =>
          if e = .valueError then
            (⟨mkUrl module_host module_port, miner_input⟩ ::
                (gmg_loop keymap miner_input http rest (i + 1) result).1,
              match (gmg_loop keymap miner_input http rest (i + 1) result).2 with
              | .error e2 => .error e2
              | .ok d => .ok ((m.netuid, ("0.0001".toList)) :: d))
          else ([⟨mkUrl module_host module_port, miner_input⟩], .error e)
      | _ => ([], .error .valueError)

/-- `BaseValidator.get_miner_generation`, parameterised by the result of
`c_client.query_map_key(netuid=10)` and by the network oracle `http`. -/
def get_miner_generation (keymap : List (Nat × PyStr)) (miner_list : List Miner)
    (miner_input : Message) (http : Nat → HttpOutcome) :
    List Request × Except PyError (List (Nat × PyStr)) :=
  gmg_loop keymap miner_input http miner_list 0 none

/-- The `module_host` component a miner entry unpacks from its
`"ss58_address"` list. -/
def minerHost (m : Miner) : PyStr := m.ss58_address.headD []

/-- The `module_port` component a miner entry unpacks from its
`"ss58_address"` list. -/
def minerPort (m : Miner) : PyStr := (m.ss58_address.drop 1).headD []

/-- The value the claim expects `results_dict` to store for the POST issued
at position `i`: the response body on a response, the string `"0.0001"` on a
raised `ValueError`. -/
def expectedBody (http : Nat → HttpOutcome) (i : Nat) : PyStr :=
  match http i with
  | .resp _ content => content
  | .exc _ => ("0.0001".toList)

/-- The `results_dict` the claim expects: one entry per miner, in list order,
mapping the miner's uid to `expectedBody` of its POST. -/
def expectedResults (http : Nat → HttpOutcome) : List Miner → Nat → List (Nat × PyStr)
  | [], _ => []
  | m :: rest, i => (m.netuid, expectedBody http i) :: expectedResults http rest (i + 1)

/-- The one POST the source issues for a miner entry:
`requests.post(f"http://{module_host}:{module_port}/generate", json=miner_input.model_dump(), timeout=30)`. -/
def expectedRequest (miner_input : Message) (m : Miner) : Request :=
  ⟨mkUrl (minerHost m) (minerPort m), miner_input⟩

/-! ### Validator state and method wrappers -/

/-- The `ModuleSettings` configuration model (an external pydantic model;
its fields are read from the constructor signature of `BaseModule.__init__`
and the `Field` defaults of `BaseValidator`). -/
structure ModuleSettings where
  key_name : PyStr
  module_path : PyStr
  host : PyStr
  port : Nat
  ss58_address : PyStr
  use_testnet : Bool
  call_timeout : Nat
  deriving DecidableEq, Repr

/-- The mutable state of a `BaseValidator` object: `settings` plus the
pydantic fields declared on `BaseValidator`. -/
structure BaseValidator where
  settings : ModuleSettings
  key_name : PyStr
  module_path : PyStr
  host : PyStr
  port : Nat
  ss58_address : PyStr
  use_testnet : Bool
  call_timeout : Nat
  deriving DecidableEq, Repr

/-- Method call `self.get_queryable_miners()`: reads
`self.settings.ss58_address`; the body assigns no attribute of `self`, so the
post-state is the object unchanged. -/
def BaseValidator.get_queryable_miners_call (self : BaseValidator)
    (module_addresses module_keys : List (Nat × PyStr)) :
    Except PyError (List (Nat × ModuleInfo)) × BaseValidator :=
  (get_queryable_miners module_addresses module_keys self.settings.ss58_address, self)

/-- Method call `self.score_miner(module_info)`: the body assigns no
attribute of `self`. -/
def BaseValidator.score_miner_call (self : BaseValidator) (netuid : Nat)
    (ss58_key : PyStr) (weights_dict : List (PyStr × Int)) :
    Except PyError (List (Nat × ScoreRec)) × BaseValidator :=
  (score_miner netuid ss58_key weights_dict, self)

/-- Method call `self.get_miner_generation(miner_list, miner_input)`: the
body assigns no attribute of `self`. -/
def BaseValidator.get_miner_generation_call (self : BaseValidator)
    (keymap : List (Nat × PyStr)) (miner_list : List Miner)
    (miner_input : Message) (http : Nat → HttpOutcome) :
    (List Request × Except PyError (List (Nat × PyStr))) × BaseValidator :=
  (get_miner_generation keymap miner_list miner_input http, self)

/-- Static-method call `BaseValidator.get_ip_port(...)` through an instance:
no attribute of `self` is touched. -/
def BaseValidator.get_ip_port_call (self : BaseValidator)
    (modules_addresses : List (Nat × PyStr)) :
    List (Nat × List PyStr) × BaseValidator :=
  (get_ip_port modules_addresses, self)

/-- Static-method call `BaseValidator.extract_address(...)` through an
instance: no attribute of `self` is touched. -/
def BaseValidator.extract_address_call (self : BaseValidator) (string : PyStr) :
    Option PyStr × BaseValidator :=
  (extract_address string, self)

/-! ### Facts about `countDigits` -/

theorem countDigits_le_length (l : PyStr) : countDigits l ≤ l.length := by
  induction l with
  | nil => simp [countDigits]
  | cons c cs ih =>
    simp only [countDigits, List.length_cons]
    split <;> omega

theorem allDigits_take_countDigits (l : PyStr) : allDigits (l.take (countDigits l)) := by
  induction l with
  | nil => intro c hc; simp [countDigits] at hc
  | cons c cs ih =>
    by_cases h : c.isDigit
    · intro x hx
      simp only [countDigits, h, if_pos, List.take_succ_cons, List.mem_cons] at hx
      rcases hx with rfl | hx
      · exact h
      · exact ih x hx
    · intro x hx
      simp only [countDigits, h, if_neg, List.take_zero] at hx
      simp at hx

theorem drop_countDigits_not_digit (l : PyStr) (c : Char) (t : PyStr)
    (h : l.drop (countDigits l) = c :: t) : c.isDigit = false := by
  induction l generalizing c t with
  | nil => simp at h
  | cons x xs ih =>
    by_cases hx : x.isDigit
    · simp only [countDigits, hx, if_pos, List.drop_succ_cons] at h
      exact ih c t h
    · simp only [countDigits, hx, if_neg, List.drop_zero] at h
      cases h
      simpa using hx

theorem countDigits_append_allDigits (a l : PyStr) (h : allDigits a) :
    countDigits (a ++ l) = a.length + countDigits l := by
  induction a with
  | nil => simp
  | cons c cs ih =>
    have hc : c.isDigit := h c (by simp)
    have ht : allDigits cs := fun x hx => h x (by simp [hx])
    show countDigits (c :: (cs ++ l)) = (c :: cs).length + countDigits l
    simp only [countDigits, hc, if_pos, List.length_cons]
    rw [ih ht]
    omega

/-! ### Soundness and completeness of `matchOctet` -/

theorem matchOctet_sound (sep : Char) (s : PyStr) (k : Nat) (rest : PyStr)
    (h : matchOctet sep s = some (k, rest)) :
    ∃ a, s = a ++ sep :: rest ∧ allDigits a ∧ 1 ≤ a.length ∧ a.length ≤ 3 ∧
      k = a.length + 1 := by
  unfold matchOctet at h
  split at h
  next hm =>
    split at h
    next c r hdrop =>
      split at h
      next hc =>
        simp only [Option.some.injEq, Prod.mk.injEq] at h
        obtain ⟨hk, hr⟩ := h
        subst hc
        subst hr
        subst hk
        refine ⟨s.take (countDigits s), ?_, allDigits_take_countDigits s, ?_, ?_, ?_⟩
        · conv_lhs => rw [← List.take_append_drop (countDigits s) s]
          rw [hdrop]
        · rw [List.length_take]
          have := countDigits_le_length s
          omega
        · rw [List.length_take]
          omega
        · rw [List.length_take]
          have := countDigits_le_length s
          omega
      next => exact absurd h (by simp)
    next => exact absurd h (by simp)
  next => exact absurd h (by simp)

theorem matchOctet_complete (sep : Char) (a rest : PyStr) (hd : allDigits a)
    (h1 : 1 ≤ a.length) (h3 : a.length ≤ 3) (hsep : sep.isDigit = false) :
    matchOctet sep (a ++ sep :: rest) = some (a.length + 1, rest) := by
  have hcount : countDigits (a ++ sep :: rest) = a.length := by
    rw [countDigits_append_allDigits a _ hd]
    simp [countDigits, hsep]
  unfold matchOctet
  rw [hcount, if_pos ⟨h1, h3⟩, List.drop_left]
  simp

/-! ### Soundness and completeness of `matchHere` -/

theorem take_one_add (x : Char) (l : PyStr) (n : Nat) :
    (x :: l).take (1 + n) = x :: l.take n := by
  rw [Nat.add_comm, List.take_succ_cons]

theorem take_token_shape (a b c d s4 : PyStr) (p : Nat) :
    (a ++ '.' :: (b ++ '.' :: (c ++ '.' :: (d ++ ':' :: s4)))).take
      (a.length + 1 + (b.length + 1) + (c.length + 1) + (d.length + 1) + p)
    = a ++ '.' :: (b ++ '.' :: (c ++ '.' :: (d ++ ':' :: s4.take p))) := by
  have e : a.length + 1 + (b.length + 1) + (c.length + 1) + (d.length + 1) + p
      = a.length + (1 + (b.length + (1 + (c.length + (1 + (d.length + (1 + p)))))))
      := by omega
  rw [e, List.take_append, take_one_add, List.take_append, take_one_add,
    List.take_append, take_one_add, List.take_append, take_one_add]

theorem matchHere_sound (s : PyStr) (n : Nat) (h : matchHere s = some n) :
    IsIpPortToken (s.take n) ∧ n ≤ s.length := by
  unfold matchHere at h
  split at h
  next => exact absurd h (by simp)
  next n1 s1 h1 =>
    split at h
    next => exact absurd h (by simp)
    next n2 s2 h2 =>
      split at h
      next => exact absurd h (by simp)
      next n3 s3 h3 =>
        split at h
        next => exact absurd h (by simp)
        next n4 s4 h4 =>
          split at h
          next hp =>
            simp only [Option.some.injEq] at h
            subst h
            obtain ⟨a, ha, hda, ha1, ha3, hk1⟩ := matchOctet_sound _ _ _ _ h1
            obtain ⟨b, hb, hdb, hb1, hb3, hk2⟩ := matchOctet_sound _ _ _ _ h2
            obtain ⟨c, hc, hdc, hc1, hc3, hk3⟩ := matchOctet_sound _ _ _ _ h3
            obtain ⟨d, hd, hdd, hd1, hd3, hk4⟩ := matchOctet_sound _ _ _ _ h4
            subst hk1 hk2 hk3 hk4
            have hs : s = a ++ '.' :: (b ++ '.' :: (c ++ '.' :: (d ++ ':' :: s4))) := by
              rw [ha, hb, hc, hd]
            have hple : countDigits s4 ≤ s4.length := countDigits_le_length s4
            constructor
            · refine ⟨a, b, c, d, s4.take (countDigits s4), ?_, ⟨ha1, ha3, hda⟩,
                ⟨hb1, hb3, hdb⟩, ⟨hc1, hc3, hdc⟩, ⟨hd1, hd3, hdd⟩, ?_,
                allDigits_take_countDigits s4⟩
              · rw [hs, take_token_shape]
              · rw [List.length_take]
                omega
            · rw [hs]
              simp only [List.length_append, List.length_cons]
              omega
          next => exact absurd h (by simp)

theorem matchHere_complete (t post : PyStr) (h : IsIpPortToken t) :
    ∃ n, matchHere (t ++ post) = some n ∧ t.length ≤ n := by
  obtain ⟨a, b, c, d, p, ht, ⟨ha1, ha3, hda⟩, ⟨hb1, hb3, hdb⟩, ⟨hc1, hc3, hdc⟩,
    ⟨hd1, hd3, hdd⟩, hp1, hdp⟩ := h
  have hs : t ++ post
      = a ++ '.' :: (b ++ '.' :: (c ++ '.' :: (d ++ ':' :: (p ++ post)))) := by
    rw [ht]; simp [List.append_assoc]
  have e1 := matchOctet_complete '.' a (b ++ '.' :: (c ++ '.' :: (d ++ ':' :: (p ++ post))))
    hda ha1 ha3 (by decide)
  have e2 := matchOctet_complete '.' b (c ++ '.' :: (d ++ ':' :: (p ++ post)))
    hdb hb1 hb3 (by decide)
  have e3 := matchOctet_complete '.' c (d ++ ':' :: (p ++ post)) hdc hc1 hc3 (by decide)
  have e4 := matchOctet_complete ':' d (p ++ post) hdd hd1 hd3 (by decide)
  have hpp : countDigits (p ++ post) = p.length + countDigits post :=
    countDigits_append_allDigits p post hdp
  refine ⟨a.length + 1 + (b.length + 1) + (c.length + 1) + (d.length + 1)
    + (p.length + countDigits post), ?_, ?_⟩
  · unfold matchHere
    rw [hs]
    simp only [e1, e2, e3, e4, hpp]
    rw [if_pos (by omega)]
  · rw [ht]
    simp only [List.length_append, List.length_cons]
    omega

/-! ### `searchFrom` and `extract_address` -/

theorem matchHere_nil : matchHere ([] : PyStr) = none := by decide

theorem searchFrom_none (s : PyStr) (h : searchFrom s = none) :
    ∀ i, matchHere (s.drop i) = none := by
  induction s with
  | nil => intro i; simp only [List.drop_nil]; exact matchHere_nil
  | cons c cs ih =>
    intro i
    unfold searchFrom at h
    cases hm : matchHere (c :: cs) with
    | some n => rw [hm] at h; exact absurd h (by simp)
    | none =>
      rw [hm] at h
      cases i with
      | zero => simpa using hm
      | succ j => exact ih h j

theorem searchFrom_some (s m : PyStr) (h : searchFrom s = some m) :
    ∃ i n, matchHere (s.drop i) = some n ∧ m = (s.drop i).take n ∧
      ∀ j, j < i → matchHere (s.drop j) = none := by
  induction s with
  | nil => simp [searchFrom] at h
  | cons c cs ih =>
    unfold searchFrom at h
    cases hm : matchHere (c :: cs) with
    | some n =>
      rw [hm] at h
      simp only [Option.some.injEq] at h
      exact ⟨0, n, by simpa using hm, by simpa using h.symm, by omega⟩
    | none =>
      rw [hm] at h
      obtain ⟨i, n, h1, h2, h3⟩ := ih h
      refine ⟨i + 1, n, by simpa using h1, by simpa using h2, ?_⟩
      intro j hj
      cases j with
      | zero => simpa using hm
      | succ j2 => exact h3 j2 (by omega)

/-- `extract_address` returns `None` exactly on the strings with no substring
matching `IP_REGEX`. -/
theorem extract_address_none_iff (s : PyStr) :
    extract_address s = none ↔ ¬ ContainsToken s := by
  constructor
  · intro h hc
    obtain ⟨pre, t, post, hs, ht⟩ := hc
    obtain ⟨n, hn, _⟩ := matchHere_complete t post ht
    have hdrop : s.drop pre.length = t ++ post := by
      rw [hs, List.append_assoc, List.drop_left]
    have := searchFrom_none s h pre.length
    rw [hdrop, hn] at this
    exact absurd this (by simp)
  · intro h
    cases he : extract_address s with
    | none => rfl
    | some m =>
      exfalso
      obtain ⟨i, n, h1, h2, _⟩ := searchFrom_some s m he
      obtain ⟨htok, _⟩ := matchHere_sound _ _ h1
      exact h ⟨s.take i, (s.drop i).take n, (s.drop i).drop n,
        by rw [List.append_assoc, List.take_append_drop, List.take_append_drop], htok⟩

/-- The match `extract_address` returns is the leftmost-longest `IP_REGEX`
match of the input. -/
theorem extract_address_first (s m : PyStr) (h : extract_address s = some m) :
    IsFirstMatch s m := by
  obtain ⟨i, n, h1, h2, hmin⟩ := searchFrom_some s m h
  obtain ⟨htok, hn⟩ := matchHere_sound _ _ h1
  have hile : i ≤ s.length := by
    by_contra hgt
    rw [List.drop_of_length_le (by omega)] at h1
    rw [matchHere_nil] at h1
    exact absurd h1 (by simp)
  have hmlen : m.length = n := by
    rw [h2, List.length_take, List.length_drop]
    have : n ≤ s.length - i := by simpa using hn
    omega
  refine ⟨by rwa [← h2] at htok, s.take i, (s.drop i).drop n, ?_, ?_⟩
  · rw [h2, List.append_assoc, List.take_append_drop, List.take_append_drop]
  · intro pre2 t2 post2 hs2 ht2
    have hdrop2 : s.drop pre2.length = t2 ++ post2 := by
      rw [hs2, List.append_assoc, List.drop_left]
    obtain ⟨n2, hn2, hlen2⟩ := matchHere_complete t2 post2 ht2
    have hpre : (s.take i).length = i := by
      rw [List.length_take]; omega
    constructor
    · rw [hpre]
      by_contra hlt
      have := hmin pre2.length (by omega)
      rw [hdrop2, hn2] at this
      exact absurd this (by simp)
    · intro heq
      rw [hpre] at heq
      rw [heq] at hdrop2
      rw [hdrop2, hn2] at h1
      simp only [Option.some.injEq] at h1
      omega

/-- The match `extract_address` returns contains the whole of an `IP_REGEX`
token, hence exactly one colon. -/
theorem extract_address_token (s m : PyStr) (h : extract_address s = some m) :
    IsIpPortToken m :=
  (extract_address_first s m h).1

/-! ### Facts about `splitOnColon` -/

theorem splitOnColon_no_colon (l : PyStr) (h : ':' ∉ l) : splitOnColon l = [l] := by
  induction l with
  | nil => rfl
  | cons c cs ih =>
    have hc : ¬ c = ':' := fun he => h (by simp [he])
    have hcs : ':' ∉ cs := fun hm => h (by simp [hm])
    simp [splitOnColon, hc, ih hcs]

theorem splitOnColon_colon_cons (a b : PyStr) (h : ':' ∉ a) :
    splitOnColon (a ++ ':' :: b) = a :: splitOnColon b := by
  induction a with
  | nil => simp [splitOnColon]
  | cons c cs ih =>
    have hc : ¬ c = ':' := fun he => h (by simp [he])
    have hcs : ':' ∉ cs := fun hm => h (by simp [hm])
    show splitOnColon (c :: (cs ++ ':' :: b)) = (c :: cs) :: splitOnColon b
    simp [splitOnColon, hc, ih hcs]

theorem mem_splitOnColon_no_colon (l : PyStr) :
    ∀ piece, piece ∈ splitOnColon l → ':' ∉ piece := by
  induction l with
  | nil =>
    intro piece h
    simp only [splitOnColon, List.mem_singleton] at h
    subst h
    simp
  | cons c cs ih =>
    intro piece h
    by_cases hc : c = ':'
    · simp only [splitOnColon, hc, if_pos, List.mem_cons] at h
      rcases h with rfl | h
      · simp
      · exact ih piece h
    · have hrec : splitOnColon (c :: cs)
          = match splitOnColon cs with
            | r :: rs => (c :: r) :: rs
            | [] => [[c]] := by
        simp [splitOnColon, hc]
      rw [hrec] at h
      cases hsp : splitOnColon cs with
      | nil =>
        rw [hsp] at h
        simp only [List.mem_singleton] at h
        subst h
        intro hm
        simp only [List.mem_singleton] at hm
        exact hc hm.symm
      | cons r rs =>
        rw [hsp] at h
        simp only [List.mem_cons] at h
        rcases h with rfl | h
        · intro hm
          simp only [List.mem_cons] at hm
          rcases hm with he | hm
          · exact hc he.symm
          · exact ih r (by rw [hsp]; exact List.mem_cons_self r rs) hm
        · exact ih piece (by rw [hsp]; exact List.mem_cons_of_mem r h)

/-- Decomposition of an `IP_REGEX` token at its unique colon: `split(":")`
yields exactly the two pieces `[ip, port]`. -/
theorem token_split (t : PyStr) (h : IsIpPortToken t) :
    ∃ ip port, t = ip ++ ':' :: port ∧ ':' ∉ ip ∧ ':' ∉ port ∧
      splitOnColon t = [ip, port] := by
  obtain ⟨a, b, c, d, p, ht, oa, ob, oc, od, hp1, hdp⟩ := h
  have hnd : (':').isDigit = false := by decide
  refine ⟨a ++ '.' :: (b ++ '.' :: (c ++ '.' :: d)), p, ?_, ?_, ?_, ?_⟩
  · rw [ht]; simp [List.append_assoc]
  · intro hmem
    simp only [List.mem_append, List.mem_cons] at hmem
    rcases hmem with h1 | h1 | h1 | h1 | h1 | h1 | h1
    · exact absurd (oa.2.2 ':' h1) (by simp [hnd])
    · exact absurd h1 (by decide)
    · exact absurd (ob.2.2 ':' h1) (by simp [hnd])
    · exact absurd h1 (by decide)
    · exact absurd (oc.2.2 ':' h1) (by simp [hnd])
    · exact absurd h1 (by decide)
    · exact absurd (od.2.2 ':' h1) (by simp [hnd])
  · intro hmem
    exact absurd (hdp ':' hmem) (by simp [hnd])
  · have hip : ':' ∉ a ++ '.' :: (b ++ '.' :: (c ++ '.' :: d)) := by
      intro hmem
      simp only [List.mem_append, List.mem_cons] at hmem
      rcases hmem with h1 | h1 | h1 | h1 | h1 | h1 | h1
      · exact absurd (oa.2.2 ':' h1) (by simp [hnd])
      · exact absurd h1 (by decide)
      · exact absurd (ob.2.2 ':' h1) (by simp [hnd])
      · exact absurd h1 (by decide)
      · exact absurd (oc.2.2 ':' h1) (by simp [hnd])
      · exact absurd h1 (by decide)
      · exact absurd (od.2.2 ':' h1) (by simp [hnd])
    have hport : ':' ∉ p := fun hmem => absurd (hdp ':' hmem) (by simp [hnd])
    have ht2 : t = (a ++ '.' :: (b ++ '.' :: (c ++ '.' :: d))) ++ ':' :: p := by
      rw [ht]; simp [List.append_assoc]
    rw [ht2, splitOnColon_colon_cons _ _ hip, splitOnColon_no_colon p hport]

/-! ### Facts about `alookup` and `get_ip_port` -/

theorem alookup_mem {α β : Type} [DecidableEq α] {k : α} {l : List (α × β)} {v : β}
    (h : alookup k l = some v) : (k, v) ∈ l := by
  induction l with
  | nil => simp [alookup] at h
  | cons p t ih =>
    obtain ⟨a, b⟩ := p
    by_cases hak : a = k
    · simp only [alookup, hak, if_pos] at h
      simp only [Option.some.injEq] at h
      subst hak; subst h
      exact List.mem_cons_self _ _
    · simp only [alookup, hak, if_neg] at h
      exact List.mem_cons_of_mem _ (ih h)

theorem alookup_none_of_not_mem {α β : Type} [DecidableEq α] {k : α}
    {l : List (α × β)} (h : k ∉ l.map Prod.fst) : alookup k l = none := by
  induction l with
  | nil => rfl
  | cons p t ih =>
    obtain ⟨a, b⟩ := p
    simp only [List.map_cons, List.mem_cons] at h
    push_neg at h
    have hne : ¬ a = k := fun he => h.1 he.symm
    simp only [alookup]
    rw [if_neg hne]
    exact ih h.2

theorem get_ip_port_nil : get_ip_port [] = [] := rfl

theorem get_ip_port_cons (id : Nat) (a : PyStr) (t : List (Nat × PyStr)) :
    get_ip_port ((id, a) :: t) =
      match extract_address a with
      | some m => (id, splitOnColon m) :: get_ip_port t
      | none => get_ip_port t := by
  unfold get_ip_port
  simp only [List.map_cons, List.filterMap_cons]
  cases extract_address a <;> simp

theorem mem_keys_get_ip_port (addrs : List (Nat × PyStr)) (id : Nat)
    (h : id ∈ (get_ip_port addrs).map Prod.fst) : id ∈ addrs.map Prod.fst := by
  induction addrs with
  | nil => simp [get_ip_port_nil] at h
  | cons p t ih =>
    obtain ⟨k, a⟩ := p
    rw [get_ip_port_cons] at h
    cases hma : extract_address a with
    | some m =>
      rw [hma] at h
      simp only [List.map_cons, List.mem_cons] at h ⊢
      rcases h with h | h
      · exact Or.inl h
      · exact Or.inr (ih h)
    | none =>
      rw [hma] at h
      simp only [List.map_cons, List.mem_cons]
      exact Or.inr (ih h)

theorem mem_get_ip_port (addrs : List (Nat × PyStr)) (id : Nat) (v : List PyStr)
    (h : (id, v) ∈ get_ip_port addrs) :
    ∃ a m, (id, a) ∈ addrs ∧ extract_address a = some m ∧ v = splitOnColon m := by
  induction addrs with
  | nil => simp [get_ip_port_nil] at h
  | cons p t ih =>
    obtain ⟨k, b⟩ := p
    rw [get_ip_port_cons] at h
    cases hma : extract_address b with
    | some m =>
      rw [hma] at h
      simp only [List.mem_cons, Prod.mk.injEq] at h
      rcases h with ⟨rfl, rfl⟩ | h
      · exact ⟨b, m, List.mem_cons_self _ _, hma, rfl⟩
      · obtain ⟨a, m2, hmem, he, hv⟩ := ih h
        exact ⟨a, m2, List.mem_cons_of_mem _ hmem, he, hv⟩
    | none =>
      rw [hma] at h
      obtain ⟨a, m2, hmem, he, hv⟩ := ih h
      exact ⟨a, m2, List.mem_cons_of_mem _ hmem, he, hv⟩

/-- Lookup characterization of `get_ip_port` on a dict with unique keys. -/
theorem alookup_get_ip_port (addrs : List (Nat × PyStr))
    (hnd : (addrs.map Prod.fst).Nodup) (id : Nat) :
    alookup id (get_ip_port addrs) =
      match alookup id addrs with
      | none => none
      | some a =>
        match extract_address a with
        | some m => some (splitOnColon m)
        | none => none := by
  induction addrs with
  | nil => rfl
  | cons p t ih =>
    obtain ⟨k, a⟩ := p
    simp only [List.map_cons, List.nodup_cons] at hnd
    rw [get_ip_port_cons]
    by_cases hik : k = id
    · subst hik
      cases hma : extract_address a with
      | some m =>
        simp only [alookup, if_pos, hma]
      | none =>
        simp only [alookup, if_pos, hma]
        refine alookup_none_of_not_mem ?_
        intro hmem
        exact hnd.1 (mem_keys_get_ip_port t k hmem)
    · cases hma : extract_address a with
      | some m =>
        simp only [alookup, hik, if_neg]
        exact ih hnd.2
      | none =>
        simp only [alookup, hik, if_neg]
        exact ih hnd.2

theorem nodup_keys_eq {α β : Type} {l : List (α × β)} (hnd : (l.map Prod.fst).Nodup)
    {k : α} {x y : β} (hx : (k, x) ∈ l) (hy : (k, y) ∈ l) : x = y := by
  induction l with
  | nil => simp at hx
  | cons p t ih =>
    obtain ⟨a, b⟩ := p
    simp only [List.map_cons, List.nodup_cons] at hnd
    rcases List.mem_cons.1 hx with hxe | hxm
    · rcases List.mem_cons.1 hy with hye | hym
      · rw [Prod.mk.injEq] at hxe hye
        rw [hxe.2, hye.2]
      · rw [Prod.mk.injEq] at hxe
        exfalso
        exact hnd.1 (hxe.1 ▸ (List.mem_map_of_mem Prod.fst hym))
    · rcases List.mem_cons.1 hy with hye | hym
      · rw [Prod.mk.injEq] at hye
        exfalso
        exact hnd.1 (hye.1 ▸ (List.mem_map_of_mem Prod.fst hxm))
      · exact ih hnd.2 hxm hym

/-! ### Facts about `gqm_info1`, `gqm_step2` and `gqm_loop` -/

/-- Every value stored by `get_ip_port` is a two-element `[ip, port]` list. -/
theorem get_ip_port_val_two (addrs : List (Nat × PyStr)) (id : Nat) (v : List PyStr)
    (hv : alookup id (get_ip_port addrs) = some v) : ∃ ip port, v = [ip, port] := by
  obtain ⟨a, m, hmem, he, hveq⟩ := mem_get_ip_port addrs id v (alookup_mem hv)
  obtain ⟨ip, port, hm, hip, hport, hsplit⟩ := token_split m (extract_address_token a m he)
  exact ⟨ip, port, by rw [hveq, hsplit]⟩

/-- The `":" in module_host_address` guard never fires on a `get_ip_port`
value: the second walrus block never adds `"host"`/`"port"` and never
raises. -/
theorem gqm_step2_ok (addrs : List (Nat × PyStr)) (module_id : Nat)
    (info1 : ModuleInfo) :
    gqm_step2 (get_ip_port addrs) module_id info1 = .ok info1 := by
  unfold gqm_step2
  cases hv : alookup module_id (get_ip_port addrs) with
  | none => rfl
  | some v =>
    obtain ⟨a, m, hmem, he, hveq⟩ := mem_get_ip_port addrs module_id v (alookup_mem hv)
    have hcolon : ¬ (([':'] : PyStr) ∈ v) := by
      intro hm
      exact mem_splitOnColon_no_colon m [':'] (by rw [← hveq]; exact hm) (by simp)
    by_cases hemp : v.isEmpty
    · simp [hemp]
    · simp [hemp, hcolon]

/-- Characterization of the first walrus block on `get_ip_port` values. -/
theorem gqm_info1_char (addrs : List (Nat × PyStr)) (module_id : Nat) :
    (alookup module_id (get_ip_port addrs) = none →
      gqm_info1 (get_ip_port addrs) module_id = ModuleInfo.empty) ∧
    (∀ v, alookup module_id (get_ip_port addrs) = some v →
      gqm_info1 (get_ip_port addrs) module_id
        = ⟨some module_id, some v, none, none⟩) := by
  constructor
  · intro h
    unfold gqm_info1
    rw [h]
  · intro v hv
    obtain ⟨ip, port, hv2⟩ := get_ip_port_val_two addrs module_id v hv
    have hemp : ¬ v.isEmpty := by rw [hv2]; simp
    have hstep : gqm_info1 (get_ip_port addrs) module_id
        = if v.isEmpty then ModuleInfo.empty
          else { ModuleInfo.empty with
                  netuid := some module_id, ss58_address := some v } := by
      unfold gqm_info1
      rw [hv]
    rw [hstep, if_neg hemp]
    rfl

/-- Structural invariant of the `get_queryable_miners` loop: every entry of
the result was produced from a non-master, non-self key of the iterated
dict, carries no `"host"`/`"port"`, and carries `"netuid"`/`"ss58_address"`
exactly when the id has a `get_ip_port` entry; conversely every non-master,
non-self key of the iterated dict yields an entry. -/
theorem gqm_loop_inv (addrs : List (Nat × PyStr)) (self : PyStr)
    (ks : List (Nat × PyStr)) :
    ∀ d, gqm_loop addrs (get_ip_port addrs) self ks = .ok d →
      (∀ id info, (id, info) ∈ d →
        id ≠ 0 ∧ (∃ key, (id, key) ∈ ks ∧ key ≠ self) ∧
        info.host = none ∧ info.port = none ∧
        ((info.netuid = none ∧ info.ss58_address = none ∧
            alookup id (get_ip_port addrs) = none) ∨
          (∃ v, alookup id (get_ip_port addrs) = some v ∧
            info.netuid = some id ∧ info.ss58_address = some v))) ∧
      (∀ id key, (id, key) ∈ ks → id ≠ 0 → key ≠ self →
        ∃ info, (id, info) ∈ d) := by
  induction ks with
  | nil =>
    intro d h
    simp only [gqm_loop, Except.ok.injEq] at h
    subst h
    exact ⟨fun id info hm => absurd hm (List.not_mem_nil _),
      fun id key hk => absurd hk (List.not_mem_nil _)⟩
  | cons p rest ih =>
    obtain ⟨k, key⟩ := p
    intro d h
    unfold gqm_loop at h
    by_cases hk0 : k = 0
    · rw [if_pos hk0] at h
      obtain ⟨h1, h2⟩ := ih d h
      refine ⟨fun id info hm => ?_, fun id key2 hmem hid0 hkself => ?_⟩
      · obtain ⟨hid0, ⟨key3, hkey3, hkey3s⟩, hrest⟩ := h1 id info hm
        exact ⟨hid0, ⟨key3, List.mem_cons_of_mem _ hkey3, hkey3s⟩, hrest⟩
      · rcases List.mem_cons.1 hmem with heq | hmem2
        · rw [Prod.mk.injEq] at heq
          exact absurd (heq.1.trans hk0) hid0
        · exact h2 id key2 hmem2 hid0 hkself
    · rw [if_neg hk0] at h
      by_cases hkeyself : key = self
      · rw [if_pos hkeyself] at h
        obtain ⟨h1, h2⟩ := ih d h
        refine ⟨fun id info hm => ?_, fun id key2 hmem hid0 hkself => ?_⟩
        · obtain ⟨hid0, ⟨key3, hkey3, hkey3s⟩, hrest⟩ := h1 id info hm
          exact ⟨hid0, ⟨key3, List.mem_cons_of_mem _ hkey3, hkey3s⟩, hrest⟩
        · rcases List.mem_cons.1 hmem with heq | hmem2
          · rw [Prod.mk.injEq] at heq
            exact absurd (heq.2.trans hkeyself) hkself
          · exact h2 id key2 hmem2 hid0 hkself
      · rw [if_neg hkeyself] at h
        cases hma : alookup k addrs with
        | none =>
          rw [hma] at h
          exact absurd h (by simp)
        | some addr =>
          rw [hma] at h
          simp only [gqm_step2_ok addrs k] at h
          cases hrec : gqm_loop addrs (get_ip_port addrs) self rest with
          | error e =>
            rw [hrec] at h
            exact absurd h (by simp)
          | ok d2 =>
            rw [hrec] at h
            simp only [Except.ok.injEq] at h
            subst h
            obtain ⟨h1, h2⟩ := ih d2 hrec
            refine ⟨fun id info hm => ?_, fun id key2 hmem hid0 hkself => ?_⟩
            · rcases List.mem_cons.1 hm with heq | hm2
              · rw [Prod.mk.injEq] at heq
                obtain ⟨rfl, rfl⟩ := heq
                refine ⟨hk0, ⟨key, List.mem_cons_self _ _, hkeyself⟩, ?_⟩
                cases hv : alookup id (get_ip_port addrs) with
                | none =>
                  rw [(gqm_info1_char addrs id).1 hv]
                  exact ⟨rfl, rfl, Or.inl ⟨rfl, rfl, rfl⟩⟩
                | some v =>
                  rw [(gqm_info1_char addrs id).2 v hv]
                  exact ⟨rfl, rfl, Or.inr ⟨v, rfl, rfl, rfl⟩⟩
              · obtain ⟨hid0, ⟨key3, hkey3, hkey3s⟩, hrest⟩ := h1 id info hm2
                exact ⟨hid0, ⟨key3, List.mem_cons_of_mem _ hkey3, hkey3s⟩, hrest⟩
            · rcases List.mem_cons.1 hmem with heq | hmem2
              · rw [Prod.mk.injEq] at heq
                obtain ⟨rfl, rfl⟩ := heq
                exact ⟨gqm_info1 (get_ip_port addrs) id, List.mem_cons_self _ _⟩
              · obtain ⟨info, hinfo⟩ := h2 id key2 hmem2 hid0 hkself
                exact ⟨info, List.mem_cons_of_mem _ hinfo⟩

/-! ### Claim theorems -/

/-- C1: for every dictionary mapping module ids to address strings,
`get_ip_port` returns a dictionary whose key set is exactly the ids whose
address string contains a substring matching the IP:port regex (one to three
digits, dot, repeated four times, colon, one or more digits), and whose value
for each such id is the first such matching substring split at the colon into
the two-element list `[ip, port]`; ids whose address contains no such
substring are omitted. -/
theorem C1_get_ip_port_spec (addrs : List (Nat × PyStr))
    (hnd : (addrs.map Prod.fst).Nodup) :
    (∀ id : Nat, alookup id addrs = none → alookup id (get_ip_port addrs) = none) ∧
    (∀ id a, alookup id addrs = some a →
      ((ContainsToken a ↔ (alookup id (get_ip_port addrs)).isSome) ∧
       (¬ ContainsToken a → alookup id (get_ip_port addrs) = none) ∧
       (∀ v, alookup id (get_ip_port addrs) = some v →
         ∃ ip port, v = [ip, port] ∧ IsFirstMatch a (ip ++ ':' :: port)))) := by
  refine ⟨?_, ?_⟩
  · intro id h
    rw [alookup_get_ip_port addrs hnd id, h]
  · intro id a ha
    have hchar0 := alookup_get_ip_port addrs hnd id
    rw [ha] at hchar0
    have hchar : alookup id (get_ip_port addrs) =
        match extract_address a with
        | some m => some (splitOnColon m)
        | none => none := hchar0
    cases he : extract_address a with
    | none =>
      rw [he] at hchar
      have hnc := (extract_address_none_iff a).1 he
      refine ⟨⟨fun hct => absurd hct hnc, fun hs => ?_⟩, fun _ => hchar, fun v hv => ?_⟩
      · rw [hchar] at hs; simp at hs
      · rw [hchar] at hv; exact absurd hv (by simp)
    | some m =>
      rw [he] at hchar
      obtain ⟨htok, pre, post, hs, hmin⟩ := extract_address_first a m he
      obtain ⟨ip, port, hm, hip, hport, hsplit⟩ := token_split m htok
      refine ⟨⟨fun _ => ?_, fun _ => ⟨pre, m, post, hs, htok⟩⟩,
        fun hnc => absurd ⟨pre, m, post, hs, htok⟩ hnc, fun v hv => ?_⟩
      · rw [hchar]; simp
      · rw [hchar] at hv
        simp only [Option.some.injEq] at hv
        subst hv
        refine ⟨ip, port, hsplit, ?_⟩
        rw [← hm]
        exact ⟨htok, pre, post, hs, hmin⟩

/-- Witness for C1 at a concrete two-entry dict. -/
theorem C1_get_ip_port_spec_witness :
    ∃ ip port, [("10.0.0.7".toList), ("80".toList)] = [ip, port] ∧
      IsFirstMatch ("a 10.0.0.7:80".toList) (ip ++ ':' :: port) := by
  have h := (C1_get_ip_port_spec [(1, ("a 10.0.0.7:80".toList)), (2, "x".toList)]
      (by decide)).2 1 ("a 10.0.0.7:80".toList) (by decide)
  exact h.2.2 [("10.0.0.7".toList), ("80".toList)] (by decide)

/-- C2: for every result of the on-chain address and key queries, the
dictionary returned by `get_queryable_miners` never contains the master entry
(module id 0) and never contains an entry whose on-chain ss58 key equals the
validator's own configured ss58_address; every other module id with a
parseable IP:port address appears with its `netuid` field equal to the module
id. -/
theorem C2_get_queryable_miners_spec (module_addresses module_keys : List (Nat × PyStr))
    (self_ss58 : PyStr) (hnd : (module_keys.map Prod.fst).Nodup)
    (d : List (Nat × ModuleInfo))
    (h : get_queryable_miners module_addresses module_keys self_ss58 = .ok d) :
    (∀ info, (0, info) ∉ d) ∧
    (∀ id key, (id, key) ∈ module_keys → key = self_ss58 → ∀ info, (id, info) ∉ d) ∧
    (∀ id key, (id, key) ∈ module_keys → id ≠ 0 → key ≠ self_ss58 →
      ∀ v, alookup id (get_ip_port module_addresses) = some v →
        ∃ info, (id, info) ∈ d ∧ info.netuid = some id) := by
  unfold get_queryable_miners at h
  split at h
  next => exact absurd h (by simp)
  next hne =>
    obtain ⟨h1, h2⟩ := gqm_loop_inv module_addresses self_ss58 module_keys d h
    refine ⟨?_, ?_, ?_⟩
    · intro info hm
      exact (h1 0 info hm).1 rfl
    · intro id key hkmem hkeq info hm
      obtain ⟨_, ⟨key2, hk2mem, hk2ne⟩, _⟩ := h1 id info hm
      exact hk2ne ((nodup_keys_eq hnd hk2mem hkmem).trans hkeq)
    · intro id key hkmem hid0 hkself v hv
      obtain ⟨info, hinfo⟩ := h2 id key hkmem hid0 hkself
      obtain ⟨_, _, _, _, hdisj⟩ := h1 id info hinfo
      rcases hdisj with ⟨_, _, hnone⟩ | ⟨v2, hv2, hnet, _⟩
      · rw [hv] at hnone
        exact absurd hnone (by simp)
      · exact ⟨info, hinfo, hnet⟩

/-- Witness for C2 at a concrete pair of chain query results. -/
theorem C2_get_queryable_miners_spec_witness :
    ∃ info,
      (1, info) ∈ [(1, (⟨some 1, some [("1.2.3.4".toList), ("80".toList)],
        none, none⟩ : ModuleInfo))] ∧ info.netuid = some 1 := by
  have h := C2_get_queryable_miners_spec [(1, ("1.2.3.4:80".toList))]
    [(0, ("mk".toList)), (1, ("k1".toList))] ("zz".toList) (by decide)
    [(1, ⟨some 1, some [("1.2.3.4".toList), ("80".toList)], none, none⟩)] rfl
  exact h.2.2 1 ("k1".toList) (by decide) (by decide) (by decide)
    [("1.2.3.4".toList), ("80".toList)] (by decide)

/-- C7: no dictionary value returned by `get_queryable_miners` ever contains
a `host` or `port` key, because the guard tests whether the string `":"` is
an element of the two-element `[ip, port]` list produced by `get_ip_port`,
which is always false; each returned entry holds at most the `netuid` and
`ss58_address` keys, the latter bound to the `[ip, port]` list (not an ss58
key). -/
theorem C7_no_host_port (module_addresses module_keys : List (Nat × PyStr))
    (self_ss58 : PyStr) (d : List (Nat × ModuleInfo))
    (h : get_queryable_miners module_addresses module_keys self_ss58 = .ok d) :
    ∀ id info, (id, info) ∈ d →
      info.host = none ∧ info.port = none ∧
      (∀ x, info.ss58_address = some x →
        info.netuid = some id ∧
        alookup id (get_ip_port module_addresses) = some x ∧
        ∃ ip port, x = [ip, port]) := by
  unfold get_queryable_miners at h
  split at h
  next => exact absurd h (by simp)
  next hne =>
    obtain ⟨h1, _⟩ := gqm_loop_inv module_addresses self_ss58 module_keys d h
    intro id info hm
    obtain ⟨_, _, hhost, hport, hdisj⟩ := h1 id info hm
    refine ⟨hhost, hport, ?_⟩
    intro x hx
    rcases hdisj with ⟨_, hnone, _⟩ | ⟨v, hv, hnet, hss⟩
    · rw [hx] at hnone
      exact absurd hnone (by simp)
    · rw [hx] at hss
      simp only [Option.some.injEq] at hss
      subst hss
      exact ⟨hnet, hv, get_ip_port_val_two module_addresses id x hv⟩

/-- Witness for C7 at a concrete pair of chain query results. -/
theorem C7_no_host_port_witness :
    (⟨some 1, some [("1.2.3.4".toList), ("80".toList)], none, none⟩ :
        ModuleInfo).host = none ∧
    (⟨some 1, some [("1.2.3.4".toList), ("80".toList)], none, none⟩ :
        ModuleInfo).port = none ∧
    (∀ x, (⟨some 1, some [("1.2.3.4".toList), ("80".toList)], none, none⟩ :
        ModuleInfo).ss58_address = some x →
      (⟨some 1, some [("1.2.3.4".toList), ("80".toList)], none, none⟩ :
        ModuleInfo).netuid = some 1 ∧
      alookup 1 (get_ip_port [(1, ("1.2.3.4:80".toList))]) = some x ∧
      ∃ ip port, x = [ip, port]) := by
  have h := C7_no_host_port [(1, ("1.2.3.4:80".toList))]
    [(0, ("mk".toList)), (1, ("k1".toList))] ("zz".toList)
    [(1, ⟨some 1, some [("1.2.3.4".toList), ("80".toList)], none, none⟩)] rfl
  exact h 1 ⟨some 1, some [("1.2.3.4".toList), ("80".toList)], none, none⟩ (by decide)

/-- C3: for every `module_info` containing a `netuid` and an `ss58_address`,
`score_miner` raises `RuntimeError` if and only if the ss58_address is absent
from the on-chain weights mapping for that netuid; otherwise it returns a
dictionary mapping the netuid to a record whose `weight` field equals the
weight stored in the weights mapping under that ss58_address. -/
theorem C3_score_miner_spec (netuid : Nat) (ss58_key : PyStr)
    (weights_dict : List (PyStr × Int)) :
    (score_miner netuid ss58_key weights_dict = .error .runtimeError ↔
      alookup ss58_key weights_dict = none) ∧
    (∀ w, alookup ss58_key weights_dict = some w →
      score_miner netuid ss58_key weights_dict = .ok [(netuid, ⟨w⟩)]) := by
  constructor
  · constructor
    · intro h
      cases hw : alookup ss58_key weights_dict with
      | none => rfl
      | some w =>
        unfold score_miner at h
        rw [hw] at h
        exact absurd h (by simp [alookup])
    · intro h
      unfold score_miner
      rw [h]
  · intro w hw
    unfold score_miner
    rw [hw]
    simp [alookup]

/-- Witness for C3 at a concrete weights dict. -/
theorem C3_score_miner_spec_witness :
    score_miner 5 ("key".toList) [("key".toList, 7)] = .ok [(5, ⟨7⟩)] := by
  have h := C3_score_miner_spec 5 ("key".toList) [("key".toList, 7)]
  exact h.2 7 (by decide)

/-- C9: `score_miner` always returns a dictionary with exactly one key — the
given netuid — and the result always comes from the assignment branch
(`modules_info[netuid] = {"weight": weights}`): the `+=` accumulation branch
guarded by `netuid in modules_info` is unreachable because `modules_info` is
freshly created empty immediately before the test, so no aggregation across
entries ever occurs within one call. -/
theorem C9_score_miner_single (netuid : Nat) (ss58_key : PyStr)
    (weights_dict : List (PyStr × Int)) (d : List (Nat × ScoreRec))
    (h : score_miner netuid ss58_key weights_dict = .ok d) :
    d.map Prod.fst = [netuid] ∧
    ∃ w, alookup ss58_key weights_dict = some w ∧ d = [(netuid, ⟨w⟩)] := by
  unfold score_miner at h
  cases hw : alookup ss58_key weights_dict with
  | none =>
    rw [hw] at h
    exact absurd h (by simp)
  | some w =>
    rw [hw] at h
    simp only [alookup, Except.ok.injEq] at h
    subst h
    exact ⟨rfl, w, rfl, rfl⟩

/-- Witness for C9 at a concrete call. -/
theorem C9_score_miner_single_witness :
    ([(5, (⟨7⟩ : ScoreRec))].map Prod.fst = [5]) ∧
    ∃ w, alookup ("key".toList) [(("key".toList), (7 : Int))] = some w ∧
      ([(5, (⟨7⟩ : ScoreRec))] : List (Nat × ScoreRec)) = [(5, ⟨w⟩)] :=
  C9_score_miner_single 5 ("key".toList) [("key".toList, 7)] [(5, ⟨7⟩)] rfl

/-- C6: every listed operation leaves the validator object's stored
configuration (`self.settings` and every field of `BaseValidator`) unchanged:
the methods read chain and network data but assign no attribute, keeping no
state across calls. -/
theorem C6_methods_preserve_state (self : BaseValidator)
    (module_addresses module_keys keymap : List (Nat × PyStr))
    (netuid : Nat) (ss58_key : PyStr) (weights_dict : List (PyStr × Int))
    (miner_list : List Miner) (miner_input : Message) (http : Nat → HttpOutcome)
    (addrs2 : List (Nat × PyStr)) (s : PyStr) :
    (self.get_queryable_miners_call module_addresses module_keys).2 = self ∧
    (self.score_miner_call netuid ss58_key weights_dict).2 = self ∧
    (self.get_miner_generation_call keymap miner_list miner_input http).2 = self ∧
    (self.get_ip_port_call addrs2).2 = self ∧
    (self.extract_address_call s).2 = self :=
  ⟨rfl, rfl, rfl, rfl, rfl⟩

/-! ### Facts about `gmg_loop` -/

/-- Happy path of the miner loop: when every uid is registered, every
`"ss58_address"` entry has exactly two elements, and every POST either
returns status 200 or raises `ValueError`, the loop issues exactly one POST
per miner, in list order, and collects `expectedResults`. -/
theorem gmg_loop_happy (keymap : List (Nat × PyStr)) (msg : Message)
    (http : Nat → HttpOutcome) (miners : List Miner) :
    ∀ (i : Nat) (res0 : Option PyStr),
      (∀ m ∈ miners, (alookup m.netuid keymap).isSome) →
      (∀ m ∈ miners, ∃ hst prt, m.ss58_address = [hst, prt]) →
      (∀ j, j < miners.length →
        (∃ c, http (i + j) = .resp 200 c) ∨ http (i + j) = .exc .valueError) →
      gmg_loop keymap msg http miners i res0 =
        (miners.map (expectedRequest msg), .ok (expectedResults http miners i)) := by
  induction miners with
  | nil =>
    intro i res0 _ _ _
    rfl
  | cons m rest ih =>
    intro i res0 hk hs hh
    obtain ⟨hst, prt, hsm⟩ := hs m (List.mem_cons_self _ _)
    have hkm := hk m (List.mem_cons_self _ _)
    have hreq : expectedRequest msg m = ⟨mkUrl hst prt, msg⟩ := by
      simp [expectedRequest, minerHost, minerPort, hsm]
    cases hkl : alookup m.netuid keymap with
    | none =>
      rw [hkl] at hkm
      simp at hkm
    | some key =>
      have hrest_k : ∀ m2 ∈ rest, (alookup m2.netuid keymap).isSome :=
        fun m2 hm2 => hk m2 (List.mem_cons_of_mem _ hm2)
      have hrest_s : ∀ m2 ∈ rest, ∃ h2 p2, m2.ss58_address = [h2, p2] :=
        fun m2 hm2 => hs m2 (List.mem_cons_of_mem _ hm2)
      have h0 := hh 0 (by simp)
      rw [Nat.add_zero] at h0
      have hrest_h : ∀ j, j < rest.length →
          (∃ c2, http (i + 1 + j) = .resp 200 c2) ∨
            http (i + 1 + j) = .exc .valueError := by
        intro j hj
        have hlt : j + 1 < (m :: rest).length := by
          simp only [List.length_cons]
          omega
        have := hh (j + 1) hlt
        rwa [show i + (j + 1) = i + 1 + j by omega] at this
      rcases h0 with ⟨c, hc⟩ | hc
      · have ihr := ih (i + 1) (some c) hrest_k hrest_s hrest_h
        simp [gmg_loop, hkl, hsm, hc, ihr, expectedResults, expectedBody, hreq]
      · have ihr := ih (i + 1) res0 hrest_k hrest_s hrest_h
        simp [gmg_loop, hkl, hsm, hc, ihr, expectedResults, expectedBody, hreq]

theorem expectedResults_alookup (http : Nat → HttpOutcome) (miners : List Miner)
    (hnd : (miners.map Miner.netuid).Nodup) :
    ∀ i j, (hj : j < miners.length) →
      alookup (miners[j].netuid) (expectedResults http miners i)
        = some (expectedBody http (i + j)) := by
  induction miners with
  | nil =>
    intro i j hj
    simp at hj
  | cons m rest ih =>
    intro i j hj
    simp only [List.map_cons, List.nodup_cons] at hnd
    cases j with
    | zero =>
      simp only [List.getElem_cons_zero, expectedResults, alookup, if_pos, Nat.add_zero]
    | succ j2 =>
      have hj2 : j2 < rest.length := by
        simp only [List.length_cons] at hj
        omega
      simp only [List.getElem_cons_succ, expectedResults, alookup]
      have hmem : rest[j2].netuid ∈ rest.map Miner.netuid :=
        List.mem_map_of_mem _ (List.getElem_mem hj2)
      have hne : ¬ (m.netuid = rest[j2].netuid) := fun he => hnd.1 (he ▸ hmem)
      rw [if_neg hne]
      have := ih hnd.2 (i + 1) j2 hj2
      rwa [show i + 1 + j2 = i + (j2 + 1) by omega] at this

/-- One-prefix trace lemma for the miner loop: whatever the oracle answers,
the POSTs issued are exactly one per miner for some prefix of the list, in
list order. -/
theorem gmg_loop_trace (keymap : List (Nat × PyStr)) (msg : Message)
    (http : Nat → HttpOutcome) (miners : List Miner) :
    ∀ i res0, ∃ k, k ≤ miners.length ∧
      (gmg_loop keymap msg http miners i res0).1
        = (miners.take k).map (expectedRequest msg) := by
  induction miners with
  | nil =>
    intro i res0
    exact ⟨0, by simp, rfl⟩
  | cons m rest ih =>
    intro i res0
    cases hkl : alookup m.netuid keymap with
    | none =>
      refine ⟨0, by simp, ?_⟩
      simp [gmg_loop, hkl]
    | some key =>
      rcases hsm : m.ss58_address with _ | ⟨h1, _ | ⟨h2, _ | ⟨h3, t3⟩⟩⟩
      · exact ⟨0, by simp, by simp [gmg_loop, hkl, hsm]⟩
      · exact ⟨0, by simp, by simp [gmg_loop, hkl, hsm]⟩
      case cons.cons.cons => exact ⟨0, by simp, by simp [gmg_loop, hkl, hsm]⟩
      case cons.cons.nil =>
        have hreq : expectedRequest msg m = ⟨mkUrl h1 h2, msg⟩ := by
          simp [expectedRequest, minerHost, minerPort, hsm]
        cases hc : http i with
        | resp status content =>
          cases hres : (if status = 200 then some content else res0) with
          | none =>
            refine ⟨1, by simp, ?_⟩
            simp [gmg_loop, hkl, hsm, hc, hres, hreq]
          | some r =>
            obtain ⟨k, hkle, htr⟩ := ih (i + 1)
              (if status = 200 then some content else res0)
            rw [hres] at htr
            refine ⟨k + 1, by simp; omega, ?_⟩
            simp [gmg_loop, hkl, hsm, hc, hres, htr, hreq]
        | exc e =>
          by_cases he : e = PyError.valueError
          · obtain ⟨k, hkle, htr⟩ := ih (i + 1) res0
            refine ⟨k + 1, by simp; omega, ?_⟩
            simp [gmg_loop, hkl, hsm, hc, he, htr, hreq]
          · refine ⟨1, by simp, ?_⟩
            simp [gmg_loop, hkl, hsm, hc, he, hreq]

/-- C4: for every miner list and input message (each uid registered in the
key map, each `"ss58_address"` entry a two-element `[host, port]` list, and
each POST answering with status 200 or raising `ValueError` — the only two
cases the claim speaks about), `get_miner_generation` sends each miner's
entry one HTTP POST of the message to `http://host:port/generate` and
returns a dictionary that maps each miner's uid to the response body when
the response status is 200 and to the string `"0.0001"` when a `ValueError`
is raised for that miner. -/
theorem C4_get_miner_generation_spec (keymap : List (Nat × PyStr))
    (miner_list : List Miner) (miner_input : Message) (http : Nat → HttpOutcome)
    (hnd : (miner_list.map Miner.netuid).Nodup)
    (hk : ∀ m ∈ miner_list, (alookup m.netuid keymap).isSome)
    (hs : ∀ m ∈ miner_list, ∃ hst prt, m.ss58_address = [hst, prt])
    (hh : ∀ j, j < miner_list.length →
      (∃ c, http j = .resp 200 c) ∨ http j = .exc .valueError) :
    (get_miner_generation keymap miner_list miner_input http).1
      = miner_list.map (expectedRequest miner_input) ∧
    (get_miner_generation keymap miner_list miner_input http).2
      = .ok (expectedResults http miner_list 0) ∧
    (∀ j, (hj : j < miner_list.length) →
      alookup (miner_list[j].netuid) (expectedResults http miner_list 0)
        = some (expectedBody http j)) := by
  have hh0 : ∀ j, j < miner_list.length →
      (∃ c, http (0 + j) = .resp 200 c) ∨ http (0 + j) = .exc .valueError := by
    intro j hj
    rw [Nat.zero_add]
    exact hh j hj
  have h := gmg_loop_happy keymap miner_input http miner_list 0 none hk hs hh0
  refine ⟨?_, ?_, ?_⟩
  · rw [get_miner_generation, h]
  · rw [get_miner_generation, h]
  · intro j hj
    have := expectedResults_alookup http miner_list hnd 0 j hj
    rwa [Nat.zero_add] at this

/-- Witness for C4 at a concrete one-miner list whose POST raises
`ValueError`. -/
theorem C4_get_miner_generation_spec_witness :
    (get_miner_generation [(1, ("k".toList))]
        [⟨1, [("9.9.9.9".toList), ("80".toList)]⟩]
        ⟨("c".toList), ("r".toList)⟩ (fun _ => .exc .valueError)).2
      = .ok (expectedResults (fun _ => .exc .valueError)
          [⟨1, [("9.9.9.9".toList), ("80".toList)]⟩] 0) := by
  have h := C4_get_miner_generation_spec [(1, ("k".toList))]
    [⟨1, [("9.9.9.9".toList), ("80".toList)]⟩]
    ⟨("c".toList), ("r".toList)⟩ (fun _ => .exc .valueError)
    (by decide) (by decide)
    (fun m hm => by
      rcases List.mem_cons.1 hm with rfl | hm2
      · exact ⟨("9.9.9.9".toList), ("80".toList), rfl⟩
      · simp at hm2)
    (fun j hj => Or.inr rfl)
  exact h.2.1

/-- C5: for every miner list, `get_miner_generation` iterates over the list
exactly once in list order and attempts at most one HTTP request per miner;
no miner's request is retried after a failure, and (the loop being entirely
sequential) no two requests are in flight concurrently: whatever the network
oracle answers, the POST trace is one request per miner for a prefix of the
list, in list order. -/
theorem C5_single_pass (keymap : List (Nat × PyStr)) (miner_list : List Miner)
    (miner_input : Message) (http : Nat → HttpOutcome) :
    ∃ k, k ≤ miner_list.length ∧
      (get_miner_generation keymap miner_list miner_input http).1
        = (miner_list.take k).map (expectedRequest miner_input) :=
  gmg_loop_trace keymap miner_input http miner_list 0 none

/-- C8: in `get_miner_generation` only `ValueError` is caught; when the
first miner's HTTP response has a status code other than 200 the local
variable `result` is read before ever being assigned, so the call raises an
unhandled `NameError` instead of recording a value for that miner, and any
requests-level exception other than `ValueError` likewise propagates
uncaught. -/
theorem C8_uncaught_errors (keymap : List (Nat × PyStr)) (m : Miner)
    (rest : List Miner) (miner_input : Message) (http : Nat → HttpOutcome)
    (hk : (alookup m.netuid keymap).isSome)
    (hst prt : PyStr) (hsm : m.ss58_address = [hst, prt]) :
    (∀ status content, http 0 = .resp status content → status ≠ 200 →
      (get_miner_generation keymap (m :: rest) miner_input http).2
        = .error .nameError) ∧
    (∀ e, http 0 = .exc e → e ≠ .valueError →
      (get_miner_generation keymap (m :: rest) miner_input http).2 = .error e) := by
  constructor
  · intro status content hc hne
    cases hkl : alookup m.netuid keymap with
    | none =>
      rw [hkl] at hk
      simp at hk
    | some key =>
      have hres : (if status = 200 then some content else (none : Option PyStr))
          = none := by rw [if_neg hne]
      simp [get_miner_generation, gmg_loop, hkl, hsm, hc, hres]
  · intro e hc hne
    cases hkl : alookup m.netuid keymap with
    | none =>
      rw [hkl] at hk
      simp at hk
    | some key =>
      simp [get_miner_generation, gmg_loop, hkl, hsm, hc, hne]

/-- Witness for C8: a single miner whose POST answers 404. -/
theorem C8_uncaught_errors_witness :
    (get_miner_generation [(1, ("k".toList))]
        [⟨1, [("9.9.9.9".toList), ("80".toList)]⟩]
        ⟨("c".toList), ("r".toList)⟩ (fun _ => .resp 404 [])).2
      = .error .nameError := by
  have h := C8_uncaught_errors [(1, ("k".toList))]
    ⟨1, [("9.9.9.9".toList), ("80".toList)]⟩ []
    ⟨("c".toList), ("r".toList)⟩ (fun _ => .resp 404 []) (by decide)
    ("9.9.9.9".toList) ("80".toList) rfl
  exact h.1 404 [] rfl (by decide)

/-- Sanity check: the match is found inside a longer string. -/
theorem extract_address_sample1 :
    extract_address ("ws 10.0.12.1:8080 x".toList) = some ("10.0.12.1:8080".toList) := by decide

/-- Sanity check: no match on a plain string. -/
theorem extract_address_sample2 :
    extract_address ("no address here".toList) = none := by decide

/-- Sanity check: like Python re.search, a four-digit run shifts the match
start rather than failing the whole search. -/
theorem extract_address_sample3 :
    extract_address ("1234.5.6.7:8".toList) = some ("234.5.6.7:8".toList) := by decide

/-- Sanity check of the docstring example of get_ip_port. -/
theorem get_ip_port_sample :
    get_ip_port [(1, "192.168.0.1:8080".toList), (2, "none".toList)]
      = [(1, ["192.168.0.1".toList, "8080".toList])] := by decide
